import Mathlib

/-!
Verification of the emoji-suggester core (`EmojiSuggester` in `main.ts`):
language narrowing, engine-result merging, custom-mapping overlay,
popularity ranking, rendering/extraction, trigger detection and the
popularity feedback loop.

JavaScript objects (`Record<string, T>`) and `Map<string, T>` are both
modelled as insertion-ordered association lists `List (String × T)`:
`recSet` updates the value in place when the key is present (keeping its
position) and appends otherwise, exactly like `Map.set` / property
assignment; `recLookup` returns the value at the first matching key.
`Array.prototype.sort` with comparator `popB - popA` is modelled by the
stable `List.mergeSort` with the relation `pop b ≤ pop a`.
`String.prototype.toLowerCase` is modelled per character with
`Char.toLower` (exact on the ASCII keywords the claims exercise), and
`String.prototype.trim` as removal of leading and trailing spaces (the
trimmed text only ever contains letters and spaces).
-/

namespace TgEmoji

/-- First-match lookup in an association list, like `map.get(k)` /
`record[k]` (`none` plays the role of `undefined`). -/
def recLookup {α : Type} (m : List (String × α)) (k : String) : Option α :=
  (m.find? (fun p => p.1 == k)).map (fun p => p.2)

/-- Key-membership test, like `map.has(k)`. -/
def recHas {α : Type} (m : List (String × α)) (k : String) : Bool :=
  m.any (fun p => p.1 == k)

/-- `map.set(k, v)` / `record[k] = v`: overwrite in place when the key is
present (the entry keeps its position), append otherwise. -/
def recSet {α : Type} (m : List (String × α)) (k : String) (v : α) : List (String × α) :=
  if recHas m k then m.map (fun p => if p.1 == k then (k, v) else p) else m ++ [(k, v)]

/-- `s.includes(sub)` on the character lists of JavaScript strings. -/
def jsIncludesAux (sub : List Char) : List Char → Bool
  | [] => sub.isEmpty
  | c :: rest => sub.isPrefixOf (c :: rest) || jsIncludesAux sub rest

/-- `s.includes(sub)`: `sub` occurs contiguously in `s`. -/
def jsIncludes (s sub : String) : Bool := jsIncludesAux sub.data s.data

/-- Per-character model of `String.prototype.toLowerCase`. -/
def jsToLower (s : String) : String := String.mk (s.data.map Char.toLower)

/-- Membership in the regex class `[а-яА-Я]` (line 200 of `main.ts`):
lowercase Cyrillic U+0430–U+044F or uppercase Cyrillic U+0410–U+042F. -/
def isCyrillicChar (c : Char) : Bool :=
  (decide (0x430 ≤ c.toNat) && decide (c.toNat ≤ 0x44F)) ||
    (decide (0x410 ≤ c.toNat) && decide (c.toNat ≤ 0x42F))

/-- The fixed Spanish-diacritic query class `[ñáéíóúü¿¡]` (line 202). -/
def spanishQueryChars : List Char := ['ñ', 'á', 'é', 'í', 'ó', 'ú', 'ü', '¿', '¡']

def isSpanishQueryChar (c : Char) : Bool := spanishQueryChars.contains c

/-- `/[а-яА-Я]/.test(query)`. -/
def hasCyrillic (q : String) : Bool := q.data.any isCyrillicChar

/-- `/[ñáéíóúü¿¡]/.test(query)`. -/
def hasSpanishDiacritic (q : String) : Bool := q.data.any isSpanishQueryChar

/-- The filter callback of the language-narrowing step
(`getSuggestions`, lines 199–208). -/
def langKeep (query lang : String) : Bool :=
  if hasCyrillic query then lang == "russian"
  else if hasSpanishDiacritic query then lang == "spanish"
  else lang != "russian"

/-- `detectedLanguages = chosenLanguages.filter(...)`. -/
def detectLanguages (query : String) (chosen : List String) : List String :=
  chosen.filter (langKeep query)

/-- `languagesToSearch = detectedLanguages.length > 0 ? detectedLanguages
: chosenLanguages` (line 211). -/
def languagesToSearch (query : String) (chosen : List String) : List String :=
  if 0 < (detectLanguages query chosen).length then detectLanguages query chosen else chosen

/-- Inner loop of the merge (lines 220–226): insert each emoji of one
engine `(keyword, emojis)` pair unless the emoji is already present. -/
def addEngineEmojis (m : List (String × String)) (keyword : String) (emojis : List String) :
    List (String × String) :=
  emojis.foldl (fun m e => if recHas m e then m else recSet m e keyword) m

/-- The dictionary-merge phase: fold `addEngineEmojis` over the
engine-returned pairs starting from an empty map. -/
def dictMerge (results : List (String × List String)) : List (String × String) :=
  results.foldl (fun m p => addEngineEmojis m p.1 p.2) []

/-- The custom-mapping overlay (lines 228–234): every custom
`(keyword, emoji)` pair whose lowercased keyword contains the lowercased
query is written into the map with `map.set`. -/
def customOverlay (m : List (String × String)) (customs : List (String × String))
    (queryLower : String) : List (String × String) :=
  customs.foldl
    (fun m p => if jsIncludes (jsToLower p.1) queryLower then recSet m p.2 p.1 else m) m

/-- `emojiPopularity[e] || 0`. -/
def popOf (pop : List (String × Nat)) (e : String) : Nat := (recLookup pop e).getD 0

/-- The sort comparator `popB - popA` as the relation "may stay in this
order": `a` may precede `b` iff `pop b ≤ pop a`. -/
def popDescRel (pop : List (String × Nat)) (a b : String × String) : Prop :=
  popOf pop b.1 ≤ popOf pop a.1

instance (pop : List (String × Nat)) : DecidableRel (popDescRel pop) :=
  fun _ _ => Nat.decLe _ _

instance (pop : List (String × Nat)) : IsTotal (String × String) (popDescRel pop) :=
  ⟨fun _ _ => Nat.le_total _ _⟩

instance (pop : List (String × Nat)) : IsTrans (String × String) (popDescRel pop) :=
  ⟨fun _ _ _ hab hbc => Nat.le_trans hbc hab⟩

/-- `emojisWithKeywords.sort(...)` (lines 239–243): `Array.prototype.sort`
with a consistent comparator is the stable sort by that comparator, which
is unique; it is realised here by `insertionSort`. -/
def rankByPopularity (pop : List (String × Nat)) (l : List (String × String)) :
    List (String × String) :=
  l.insertionSort (popDescRel pop)

/-- Steps 1–4 of `getSuggestions`: the ordered `(emoji, keyword)` entry
list just before rendering. -/
def getSuggestionsEntries (results : List (String × List String))
    (customs : List (String × String)) (pop : List (String × Nat)) (query : String) :
    List (String × String) :=
  rankByPopularity pop (customOverlay (dictMerge results) customs (jsToLower query))

/-- Rendering (lines 245–251): `"<emoji> (<keyword>)"` when keywords are
shown, else the emoji alone. -/
def renderEntry (showKeywords : Bool) (p : String × String) : String :=
  if showKeywords then p.1 ++ " (" ++ p.2 ++ ")" else p.1

/-- `EmojiSuggester.getSuggestions` (lines 193–256).  The engine call
`search_multiple` composed with `JSON.parse` is the parameter `engine`;
a raised error anywhere inside the `try` block is an `Except.error`,
which the `catch` turns into `[]`. -/
def getSuggestions (engine : String → List String → Except String (List (String × List String)))
    (chosen : List String) (customs : List (String × String)) (pop : List (String × Nat))
    (showKeywords : Bool) (query : String) : List String :=
  if query == "" then []
  else
    match engine query (languagesToSearch query chosen) with
    | Except.error _ => []
    | Except.ok results =>
      (getSuggestionsEntries results customs pop query).map (renderEntry showKeywords)

/-- The acceptance-time extraction in `selectSuggestion` (line 293):
`value.split(' ')[0]` when keywords are shown (the characters before the
first space), the whole string otherwise. -/
def extractEmoji (showKeywords : Bool) (value : String) : String :=
  if showKeywords then String.mk (value.data.takeWhile (fun c => c != ' ')) else value

/-- `updateEmojiPopularity` (lines 300–308): `if (!pop[e]) pop[e] = 0;
pop[e]++` — a missing entry and a stored `0` are both falsy. -/
def updateEmojiPopularity (pop : List (String × Nat)) (emoji : String) : List (String × Nat) :=
  let pop1 := if (recLookup pop emoji).getD 0 == 0 then recSet pop emoji 0 else pop
  recSet pop1 emoji ((recLookup pop1 emoji).getD 0 + 1)

/-- Membership in the leading regex class of `onTrigger` (line 183):
`[a-zA-Zа-яА-Яñáéíóúü]`. -/
def isTriggerLetter (c : Char) : Bool :=
  (decide (0x61 ≤ c.toNat) && decide (c.toNat ≤ 0x7A)) ||
    (decide (0x41 ≤ c.toNat) && decide (c.toNat ≤ 0x5A)) ||
    isCyrillicChar c ||
    (['ñ', 'á', 'é', 'í', 'ó', 'ú', 'ü'] : List Char).contains c

/-- Membership in the continuation class `[a-zA-Zа-яА-Яñáéíóúü ]`
(note the space). -/
def isTriggerCont (c : Char) : Bool := isTriggerLetter c || c == ' '

/-- Whether a tail of the cursor-prefix matches `[letter][cont]*$`. -/
def tailMatches (cs : List Char) : Bool :=
  match cs with
  | [] => false
  | l :: run => isTriggerLetter l && run.all isTriggerCont

/-- Leftmost match of `/trigger([letter][cont]*)$/`, returning the
captured group. -/
def triggerCapture (t : Char) : List Char → Option (List Char)
  | [] => none
  | c :: rest => if c == t && tailMatches rest then some rest else triggerCapture t rest

/-- `subString.lastIndexOf(triggerChar)` (`-1` when absent). -/
def jsLastIndexOf (t : Char) (cs : List Char) : Int :=
  match cs.reverse.findIdx? (fun c => c == t) with
  | some i => (cs.length : Int) - 1 - i
  | none => -1

/-- Removal of leading and trailing spaces: the behaviour of
`String.prototype.trim` on the captured group, whose characters are
letters and spaces only. -/
def jsTrimSpaces (cs : List Char) : List Char :=
  ((cs.dropWhile (fun c => c == ' ')).reverse.dropWhile (fun c => c == ' ')).reverse

/-- The `EditorSuggestTriggerInfo` record: character offsets of the span
(on the cursor's line) and the query text. -/
structure TriggerInfo where
  startCh : Int
  endCh : Nat
  query : String
deriving Repr, DecidableEq

/-- `EmojiSuggester.onTrigger` (lines 179–191) for a single-character
trigger: match the regex against the text before the cursor; on success
the span runs from the last occurrence of the trigger to the cursor and
the query is the trimmed captured group. -/
def onTrigger (t : Char) (line : String) (cursorCh : Nat) : Option TriggerInfo :=
  let sub := line.data.take cursorCh
  match triggerCapture t sub with
  | none => none
  | some cap => some ⟨jsLastIndexOf t sub, cursorCh, String.mk (jsTrimSpaces cap)⟩

/-- Modelled from the spec: the claimed trigger condition — the trigger
character followed by one-or-more letters with a whitespace-free
continuation extending to the cursor (no space allowed anywhere after
the trigger). -/
def specTailMatches (cs : List Char) : Bool :=
  match cs with
  | [] => false
  | l :: run => isTriggerLetter l && run.all isTriggerLetter

/-- Modelled from the spec: whether the claimed (whitespace-free)
trigger condition holds somewhere in the cursor-prefix. -/
def specTriggerActive (t : Char) : List Char → Bool
  | [] => false
  | c :: rest => (c == t && specTailMatches rest) || specTriggerActive t rest

/-- Engine results flattened to `(emoji, keyword)` pairs in
engine-returned order. -/
def flattenPairs (results : List (String × List String)) : List (String × String) :=
  results.flatMap (fun p => p.2.map (fun e => (e, p.1)))

/-! ### Association-list lemmas -/

theorem recLookup_nil {α : Type} (k : String) : recLookup ([] : List (String × α)) k = none :=
  rfl

theorem recLookup_cons {α : Type} (p : String × α) (m : List (String × α)) (k : String) :
    recLookup (p :: m) k = if p.1 = k then some p.2 else recLookup m k := by
  by_cases h : p.1 = k
  · simp [recLookup, List.find?_cons_of_pos, h]
  · simp [recLookup, List.find?_cons_of_neg, h]

theorem recLookup_append {α : Type} (m₁ m₂ : List (String × α)) (k : String) :
    recLookup (m₁ ++ m₂) k = (recLookup m₁ k).or (recLookup m₂ k) := by
  simp only [recLookup, List.find?_append]
  cases m₁.find? (fun p => p.1 == k) <;> simp

theorem recHas_iff_isSome {α : Type} (m : List (String × α)) (k : String) :
    recHas m k = true ↔ (recLookup m k).isSome = true := by
  simp only [recHas, recLookup, List.any_eq_true, Option.isSome_map', List.find?_isSome]

theorem recLookup_mapUpdate {α : Type} (m : List (String × α)) (k : String) (v : α)
    (k' : String) :
    recLookup (m.map (fun p => if p.1 == k then (k, v) else p)) k' =
      if k' = k then (recLookup m k).map (fun _ => v) else recLookup m k' := by
  induction m with
  | nil => by_cases h : k' = k <;> simp [recLookup, h]
  | cons p rest ih =>
    simp only [beq_iff_eq] at ih
    by_cases hpk : p.1 = k
    · by_cases h : k' = k
      · subst h
        simp [recLookup_cons, hpk, ih]
      · simp [recLookup_cons, hpk, h, ih, Ne.symm h]
    · by_cases h : k' = k
      · subst h
        simp [recLookup_cons, hpk, ih]
      · by_cases hpk' : p.1 = k'
        · simp [recLookup_cons, hpk, hpk', h, ih]
        · simp [recLookup_cons, hpk, hpk', h, ih]

theorem recLookup_recSet {α : Type} (m : List (String × α)) (k : String) (v : α) (k' : String) :
    recLookup (recSet m k v) k' = if k' = k then some v else recLookup m k' := by
  unfold recSet
  by_cases hhas : recHas m k = true
  · rw [if_pos hhas, recLookup_mapUpdate]
    by_cases h : k' = k
    · obtain ⟨x, hx⟩ := Option.isSome_iff_exists.mp ((recHas_iff_isSome m k).mp hhas)
      simp [h, hx]
    · simp [h]
  · rw [if_neg hhas, recLookup_append]
    by_cases h : k' = k
    · have hnone : recLookup m k = none := by
        cases hl : recLookup m k with
        | none => rfl
        | some x => exact absurd ((recHas_iff_isSome m k).mpr (by simp [hl])) hhas
      subst h
      simp [hnone, recLookup_cons]
    · simp [recLookup_cons, recLookup_nil, Ne.symm h, h, Option.or_none]

theorem recLookup_mem {α : Type} {m : List (String × α)} {k : String} {v : α}
    (h : recLookup m k = some v) : (k, v) ∈ m := by
  simp only [recLookup, Option.map_eq_some'] at h
  obtain ⟨p, hfind, hsnd⟩ := h
  have hmem := List.mem_of_find?_eq_some hfind
  have hkey : p.1 = k := by simpa using List.find?_some hfind
  have : p = (k, v) := by
    cases p
    simp_all
  exact this ▸ hmem

/-! ### Key uniqueness through the pipeline -/

theorem keys_recSet {α : Type} (m : List (String × α)) (k : String) (v : α) :
    (recSet m k v).map Prod.fst =
      if recHas m k then m.map Prod.fst else m.map Prod.fst ++ [k] := by
  unfold recSet
  by_cases hhas : recHas m k = true
  · rw [if_pos hhas, if_pos hhas, List.map_map]
    refine List.map_congr_left (fun p _ => ?_)
    by_cases hpk : p.1 = k
    · simp [hpk]
    · simp [hpk]
  · simp [hhas]

theorem nodupKeys_recSet {α : Type} {m : List (String × α)} (k : String) (v : α)
    (h : (m.map Prod.fst).Nodup) : ((recSet m k v).map Prod.fst).Nodup := by
  rw [keys_recSet]
  by_cases hhas : recHas m k = true
  · simpa [hhas] using h
  · have hk : k ∉ m.map Prod.fst := by
      intro hmem
      obtain ⟨p, hp, hfst⟩ := List.mem_map.mp hmem
      refine hhas ?_
      unfold recHas
      rw [List.any_eq_true]
      exact ⟨p, hp, by simp [hfst]⟩
    simp only [hhas, Bool.false_eq_true, if_false]
    rw [List.nodup_append]
    refine ⟨h, List.nodup_singleton k, fun a ha hb => ?_⟩
    exact hk (List.mem_singleton.mp hb ▸ ha)

theorem nodupKeys_addEngineEmojis (m : List (String × String)) (kw : String)
    (es : List String) (h : (m.map Prod.fst).Nodup) :
    ((addEngineEmojis m kw es).map Prod.fst).Nodup := by
  induction es generalizing m with
  | nil => exact h
  | cons e rest ih =>
    show ((addEngineEmojis (if recHas m e then m else recSet m e kw) kw rest).map Prod.fst).Nodup
    by_cases hhas : recHas m e = true
    · exact ih _ (by simpa [hhas] using h)
    · exact ih _ (by simpa [hhas] using nodupKeys_recSet e kw h)

theorem nodupKeys_dictMergeAux (results : List (String × List String))
    (m : List (String × String)) (h : (m.map Prod.fst).Nodup) :
    ((results.foldl (fun m p => addEngineEmojis m p.1 p.2) m).map Prod.fst).Nodup := by
  induction results generalizing m with
  | nil => exact h
  | cons p rest ih => exact ih _ (nodupKeys_addEngineEmojis m p.1 p.2 h)

theorem nodupKeys_dictMerge (results : List (String × List String)) :
    ((dictMerge results).map Prod.fst).Nodup :=
  nodupKeys_dictMergeAux results [] (by simp)

theorem nodupKeys_customOverlay (customs : List (String × String))
    (m : List (String × String)) (q : String) (h : (m.map Prod.fst).Nodup) :
    ((customOverlay m customs q).map Prod.fst).Nodup := by
  induction customs generalizing m with
  | nil => exact h
  | cons p rest ih =>
    show (((customOverlay (if jsIncludes (jsToLower p.1) q then recSet m p.2 p.1 else m)
      rest q)).map Prod.fst).Nodup
    by_cases hinc : jsIncludes (jsToLower p.1) q = true
    · exact ih _ (by simpa [hinc] using nodupKeys_recSet p.2 p.1 h)
    · exact ih _ (by simpa [hinc] using h)

theorem rankByPopularity_perm (pop : List (String × Nat)) (l : List (String × String)) :
    List.Perm (rankByPopularity pop l) l :=
  List.perm_insertionSort _ l

/-! ### First keyword wins in the dictionary merge -/

theorem recLookup_addEngineEmojis (m : List (String × String)) (kw : String)
    (es : List String) (e : String) :
    recLookup (addEngineEmojis m kw es) e =
      (recLookup m e).or ((es.find? (fun x => x == e)).map (fun _ => kw)) := by
  induction es generalizing m with
  | nil => simp [addEngineEmojis, Option.or_none]
  | cons e' rest ih =>
    show recLookup (addEngineEmojis (if recHas m e' then m else recSet m e' kw) kw rest) e = _
    by_cases hhas : recHas m e' = true
    · rw [if_pos hhas, ih]
      by_cases he : e' = e
      · subst he
        obtain ⟨x, hx⟩ := Option.isSome_iff_exists.mp ((recHas_iff_isSome m e').mp hhas)
        simp [hx]
      · simp [he]
    · rw [if_neg hhas, ih, recLookup_recSet]
      by_cases he : e' = e
      · subst he
        have hnone : recLookup m e' = none := by
          cases hl : recLookup m e' with
          | none => rfl
          | some x => exact absurd ((recHas_iff_isSome m e').mpr (by simp [hl])) hhas
        simp [hnone]
      · have hne : ¬ (e = e') := fun hh => he hh.symm
        simp [he, hne]

theorem recLookup_dictMergeAux (results : List (String × List String))
    (m : List (String × String)) (e : String) :
    recLookup (results.foldl (fun m p => addEngineEmojis m p.1 p.2) m) e =
      (recLookup m e).or
        (((flattenPairs results).find? (fun p => p.1 == e)).map (fun p => p.2)) := by
  induction results generalizing m with
  | nil => simp [flattenPairs, Option.or_none]
  | cons p rest ih =>
    show recLookup (rest.foldl (fun m p => addEngineEmojis m p.1 p.2)
      (addEngineEmojis m p.1 p.2)) e = _
    rw [ih, recLookup_addEngineEmojis, Option.or_assoc]
    have hflat : flattenPairs (p :: rest) =
        p.2.map (fun e' => (e', p.1)) ++ flattenPairs rest := rfl
    rw [hflat, List.find?_append, Option.map_or', List.find?_map]
    have hcomp : ((fun p : String × String => p.1 == e) ∘ (fun e' => (e', p.1))) =
        fun x => x == e := rfl
    rw [hcomp, Option.map_map]
    rfl

theorem recLookup_dictMerge (results : List (String × List String)) (e : String) :
    recLookup (dictMerge results) e =
      ((flattenPairs results).find? (fun p => p.1 == e)).map (fun p => p.2) := by
  unfold dictMerge
  rw [recLookup_dictMergeAux, recLookup_nil, Option.none_or]

/-! ### Last matching custom mapping wins in the overlay -/

theorem recLookup_customOverlayAux (customs : List (String × String))
    (m : List (String × String)) (q e : String) :
    recLookup (customOverlay m customs q) e =
      ((customs.filter (fun p => jsIncludes (jsToLower p.1) q && p.2 == e)).getLast?).elim
        (recLookup m e) (fun p => some p.1) := by
  induction customs generalizing m with
  | nil => simp [customOverlay]
  | cons p rest ih =>
    show recLookup (customOverlay
      (if jsIncludes (jsToLower p.1) q then recSet m p.2 p.1 else m) rest q) e = _
    rw [ih]
    simp only [List.filter_cons]
    by_cases hinc : jsIncludes (jsToLower p.1) q = true
    · by_cases he : p.2 = e
      · cases ht : rest.filter (fun p => jsIncludes (jsToLower p.1) q && p.2 == e) with
        | nil => simp [hinc, he, ht, recLookup_recSet]
        | cons a l =>
          cases hgl : (a :: l).getLast? with
          | none => exact absurd (List.getLast?_eq_none_iff.mp hgl) (by simp)
          | some x => simp [hinc, he, ht, hgl, List.getLast?_cons_cons]
      · have hne : ¬ (e = p.2) := fun hh => he hh.symm
        cases ht : rest.filter (fun p => jsIncludes (jsToLower p.1) q && p.2 == e) with
        | nil => simp [hinc, he, hne, ht, recLookup_recSet]
        | cons a l =>
          cases hgl : (a :: l).getLast? with
          | none => exact absurd (List.getLast?_eq_none_iff.mp hgl) (by simp)
          | some x => simp [hinc, he, ht, hgl]
    · simp [hinc]

/-! ### Claim theorems -/

/-- C1: for every query the final suggestion list contains each emoji at
most once, and (before the custom-mapping overlay) the keyword recorded
for an emoji is the first keyword seen for it in engine-returned order —
later duplicate occurrences of the same emoji are dropped, not merged. -/
theorem c1_dedup_and_first_keyword (results : List (String × List String))
    (customs : List (String × String)) (pop : List (String × Nat)) (q e : String) :
    ((getSuggestionsEntries results customs pop q).map Prod.fst).Nodup ∧
      recLookup (dictMerge results) e =
        ((flattenPairs results).find? (fun p => p.1 == e)).map (fun p => p.2) := by
  constructor
  · have hmerged := nodupKeys_customOverlay customs (dictMerge results) (jsToLower q)
      (nodupKeys_dictMerge results)
    have hperm : List.Perm
        ((getSuggestionsEntries results customs pop q).map Prod.fst)
        ((customOverlay (dictMerge results) customs (jsToLower q)).map Prod.fst) :=
      (rankByPopularity_perm pop _).map Prod.fst
    exact hmerged.perm hperm.symm
  · exact recLookup_dictMerge results e

/-- C10: inside the custom-mapping overlay the keyword iterated last
among the matching pairs for an emoji becomes its entry (each matching
pair overwrites the previous one), while the dictionary phase keeps the
first keyword seen for each emoji. -/
theorem c10_overlay_last_wins (results : List (String × List String))
    (customs : List (String × String)) (q e : String) :
    recLookup (customOverlay (dictMerge results) customs q) e =
      ((customs.filter (fun p => jsIncludes (jsToLower p.1) q && p.2 == e)).getLast?).elim
        (recLookup (dictMerge results) e) (fun p => some p.1) ∧
      recLookup (dictMerge results) e =
        ((flattenPairs results).find? (fun p => p.1 == e)).map (fun p => p.2) :=
  ⟨recLookup_customOverlayAux customs _ q e, recLookup_dictMerge results e⟩

/-- C3 counterexample: with custom mappings `aa ↦ X` and `ab ↦ X` and
query `a`, both custom keywords contain the query, yet the final result
tags `X` with `ab` — the matching pair `(aa, X)` does not end up as the
keyword of its emoji, refuting the claim as stated. -/
theorem c3_counterexample :
    ¬ (∀ p ∈ [("aa", "X"), ("ab", "X")],
        jsIncludes (jsToLower p.1) (jsToLower "a") = true →
        recLookup (getSuggestionsEntries [] [("aa", "X"), ("ab", "X")] [] "a") p.2 =
          some p.1) := by
  decide

/-- C3 (amended): for every custom pair `(k, e)` whose keyword contains
the lowercased query and after which no other matching custom pair maps
to the same emoji, the result maps `e` to `k` — the custom keyword
overwrites any dictionary keyword for `e`, and `(e, k)` is in the final
entry list even when no dictionary keyword produced `e`. -/
theorem c3_custom_mapping_overlay (results : List (String × List String))
    (customs : List (String × String)) (pop : List (String × Nat)) (q : String)
    (k e : String) (l1 l2 : List (String × String))
    (hsplit : customs = l1 ++ (k, e) :: l2)
    (hmatch : jsIncludes (jsToLower k) (jsToLower q) = true)
    (hlast : ∀ p ∈ l2, jsIncludes (jsToLower p.1) (jsToLower q) = true → p.2 ≠ e) :
    recLookup (customOverlay (dictMerge results) customs (jsToLower q)) e = some k ∧
      (e, k) ∈ getSuggestionsEntries results customs pop q := by
  have hlook :
      recLookup (customOverlay (dictMerge results) customs (jsToLower q)) e = some k := by
    rw [recLookup_customOverlayAux, hsplit, List.filter_append]
    have hfl2 :
        l2.filter (fun p => jsIncludes (jsToLower p.1) (jsToLower q) && p.2 == e) = [] := by
      rw [List.filter_eq_nil_iff]
      intro p hp
      simp only [Bool.and_eq_true, beq_iff_eq, not_and]
      exact fun hincp => hlast p hp hincp
    rw [List.filter_cons]
    simp only [hmatch, beq_self_eq_true, Bool.and_self, Bool.and_true, if_true, hfl2]
    rw [List.getLast?_concat]
    rfl
  refine ⟨hlook, ?_⟩
  have hmem : (e, k) ∈ customOverlay (dictMerge results) customs (jsToLower q) :=
    recLookup_mem hlook
  unfold getSuggestionsEntries
  exact ((rankByPopularity_perm pop _).mem_iff).mpr hmem

/-- C3 witness: the spec scenario — custom mapping `mycompany ↦ B`,
query `my`; the emoji is present and tagged `mycompany` even though no
dictionary keyword produced it. -/
theorem c3_witness :
    recLookup (customOverlay (dictMerge []) [("mycompany", "B")] (jsToLower "my")) "B" =
        some "mycompany" ∧
      ("B", "mycompany") ∈ getSuggestionsEntries [] [("mycompany", "B")] [] "my" :=
  c3_custom_mapping_overlay [] [("mycompany", "B")] [] "my" "mycompany" "B" [] []
    rfl (by decide) (by decide)

/-- C4: the narrowing keeps exactly — only `russian` when the query has a
Cyrillic character; otherwise only `spanish` when it has a character of
the Spanish-diacritic set; otherwise every chosen language except
`russian`. -/
theorem c4_language_narrowing (q : String) (chosen : List String) (lang : String) :
    lang ∈ detectLanguages q chosen ↔
      lang ∈ chosen ∧
        (if hasCyrillic q = true then lang = "russian"
         else if hasSpanishDiacritic q = true then lang = "spanish"
         else lang ≠ "russian") := by
  unfold detectLanguages langKeep
  rw [List.mem_filter]
  by_cases hc : hasCyrillic q = true
  · simp [hc]
  · by_cases hs : hasSpanishDiacritic q = true
    · simp [hc, hs]
    · simp [hc, hs]

/-- C5: when the narrowing yields the empty set, the searched set is the
full chosen set; in particular it is non-empty whenever a language is
chosen. -/
theorem c5_language_fallback (q : String) (chosen : List String)
    (h : detectLanguages q chosen = []) :
    languagesToSearch q chosen = chosen ∧
      (chosen ≠ [] → languagesToSearch q chosen ≠ []) := by
  have heq : languagesToSearch q chosen = chosen := by
    unfold languagesToSearch
    rw [h]
    simp
  exact ⟨heq, fun hne => by rw [heq]; exact hne⟩

/-- C5 witness: a Latin query with only `russian` chosen — the narrowing
drops everything and the fallback searches the full chosen set. -/
theorem c5_witness :
    languagesToSearch "abc" ["russian"] = ["russian"] ∧
      (["russian"] ≠ ([] : List String) → languagesToSearch "abc" ["russian"] ≠ []) :=
  c5_language_fallback "abc" ["russian"] (by decide)

/-- C2: in the final entry list, an emoji with strictly greater
popularity appears before one with smaller popularity (an absent
popularity entry counts as `0`), and entries of equal popularity keep
their relative order from the merged pre-sort list (stability of the
sort). -/
theorem c2_popularity_order_stable (results : List (String × List String))
    (customs : List (String × String)) (pop : List (String × Nat)) (q : String) :
    (∀ (i j : Nat) (hi : i < (getSuggestionsEntries results customs pop q).length)
        (hj : j < (getSuggestionsEntries results customs pop q).length),
        popOf pop ((getSuggestionsEntries results customs pop q).get ⟨i, hi⟩).1 >
            popOf pop ((getSuggestionsEntries results customs pop q).get ⟨j, hj⟩).1 →
          i < j) ∧
      (∀ a b : String × String, popOf pop a.1 = popOf pop b.1 →
        List.Sublist [a, b] (customOverlay (dictMerge results) customs (jsToLower q)) →
        List.Sublist [a, b] (getSuggestionsEntries results customs pop q)) := by
  have hsorted : (getSuggestionsEntries results customs pop q).Sorted (popDescRel pop) :=
    List.sorted_insertionSort (popDescRel pop) _
  constructor
  · intro i j hi hj hgt
    by_contra hnot
    have hji : j ≤ i := Nat.le_of_not_lt hnot
    rcases Nat.eq_or_lt_of_le hji with heq | hlt
    · subst heq
      exact absurd hgt (lt_irrefl _)
    · have hrel := hsorted.rel_get_of_lt (a := ⟨j, hj⟩) (b := ⟨i, hi⟩) hlt
      exact absurd hgt (not_lt_of_le hrel)
  · intro a b hpop hsub
    exact List.pair_sublist_insertionSort (le_of_eq hpop.symm) hsub

/-- C2 witness: with popularities `a ↦ 5`, `b ↦ 2`, `a` is placed before
`b`; with equal (zero) popularity the merged order `a` then `b` is kept. -/
theorem c2_witness :
    (0 : Nat) < 1 ∧
      List.Sublist [("a", "k"), ("b", "k")]
        (getSuggestionsEntries [("k", ["a", "b"])] [] [] "k") := by
  constructor
  · exact (c2_popularity_order_stable [("k", ["b", "a"])] [] [("a", 5), ("b", 2)] "k").1
      0 1 (by decide) (by decide) (by decide)
  · exact (c2_popularity_order_stable [("k", ["a", "b"])] [] [] "k").2
      ("a", "k") ("b", "k") rfl (List.Sublist.refl _)

/-- C6: when the engine call (or the JSON decoding of its results,
modelled together as the `engine` parameter) raises, `getSuggestions`
returns the empty list instead of propagating the error. -/
theorem c6_engine_error_yields_empty
    (engine : String → List String → Except String (List (String × List String)))
    (chosen : List String) (customs : List (String × String)) (pop : List (String × Nat))
    (showKeywords : Bool) (query msg : String)
    (herr : engine query (languagesToSearch query chosen) = Except.error msg) :
    getSuggestions engine chosen customs pop showKeywords query = [] := by
  unfold getSuggestions
  by_cases hq : (query == "") = true
  · rw [if_pos hq]
  · rw [if_neg hq, herr]

/-- C6 witness: an engine that always raises yields the empty suggestion
list. -/
theorem c6_witness :
    getSuggestions (fun _ _ => Except.error "boom") ["english"] [] [] true "love" = [] :=
  c6_engine_error_yields_empty (fun _ _ => Except.error "boom") ["english"] [] [] true
    "love" "boom" rfl

theorem takeWhile_append_of_all {p : Char → Bool} :
    ∀ (l : List Char) (c : Char) (r : List Char), (∀ x ∈ l, p x = true) → p c = false →
      (l ++ c :: r).takeWhile p = l := by
  intro l
  induction l with
  | nil =>
    intro c r _ hc
    simp [List.takeWhile_cons, hc]
  | cons a l ih =>
    intro c r hall hc
    have ha : p a = true := hall a (List.mem_cons_self a l)
    simp only [List.cons_append, List.takeWhile_cons, ha, if_true]
    rw [ih c r (fun x hx => hall x (List.mem_cons_of_mem a hx)) hc]

/-- C7 counterexample: an "emoji" string containing a space is not
recovered by the split-on-first-space extraction — the claim as
universally stated fails. -/
theorem c7_counterexample :
    extractEmoji true (renderEntry true ("a b", "k")) = "a" ∧
      extractEmoji true (renderEntry true ("a b", "k")) ≠ "a b" := by
  decide

/-- C7 (amended): the extraction recovers the emoji from the rendered
display string in emoji-only mode always, and in keyword mode whenever
the emoji contains no space character. -/
theorem c7_render_extract_inverse (e k : String) :
    extractEmoji false (renderEntry false (e, k)) = e ∧
      (' ' ∉ e.data → extractEmoji true (renderEntry true (e, k)) = e) := by
  constructor
  · rfl
  · intro hs
    have hdata : ((e ++ " (" ++ k ++ ")") : String).data =
        e.data ++ (' ' :: '(' :: (k.data ++ [')'])) := by
      simp [String.data_append]
    show String.mk (((e ++ " (" ++ k ++ ")") : String).data.takeWhile (fun c => c != ' ')) = e
    rw [hdata, takeWhile_append_of_all e.data ' ' ('(' :: (k.data ++ [')']))
      (fun x hx => by simp; exact fun hxx => hs (hxx ▸ hx)) (by decide)]

/-- C7 witness: a space-free emoji round-trips through rendering and
extraction in both display modes. -/
theorem c7_witness :
    extractEmoji false (renderEntry false ("E", "love")) = "E" ∧
      extractEmoji true (renderEntry true ("E", "love")) = "E" :=
  ⟨(c7_render_extract_inverse "E" "love").1,
    (c7_render_extract_inverse "E" "love").2 (by decide)⟩

theorem triggerCapture_isSome_iff (t : Char) (cs : List Char) :
    (triggerCapture t cs).isSome = true ↔
      ∃ pre l run, cs = pre ++ t :: l :: run ∧ isTriggerLetter l = true ∧
        run.all isTriggerCont = true := by
  induction cs with
  | nil =>
    constructor
    · intro h
      simp [triggerCapture] at h
    · rintro ⟨pre, l, run, h, -, -⟩
      simp at h
  | cons c rest ih =>
    by_cases hcond : (c == t && tailMatches rest) = true
    · obtain ⟨hct, htail⟩ := Bool.and_eq_true_iff.mp hcond
      have hc : c = t := by simpa using hct
      constructor
      · intro _
        unfold tailMatches at htail
        cases rest with
        | nil => simp at htail
        | cons l run =>
          obtain ⟨hl, hrun⟩ : isTriggerLetter l = true ∧ run.all isTriggerCont = true := by
            simpa using htail
          exact ⟨[], l, run, by simp [hc], hl, hrun⟩
      · intro _
        simp [triggerCapture, hcond]
    · have hlhs : triggerCapture t (c :: rest) = triggerCapture t rest := by
        simp [triggerCapture, hcond]
      rw [hlhs, ih]
      constructor
      · rintro ⟨pre, l, run, hdec, hl, hrun⟩
        exact ⟨c :: pre, l, run, by simp [hdec], hl, hrun⟩
      · rintro ⟨pre, l, run, hdec, hl, hrun⟩
        cases pre with
        | nil =>
          simp only [List.nil_append, List.cons.injEq] at hdec
          obtain ⟨hc, hrest⟩ := hdec
          exfalso
          apply hcond
          rw [Bool.and_eq_true_iff]
          refine ⟨by simp [hc], ?_⟩
          rw [hrest]
          unfold tailMatches
          simp [hl, hrun]
        | cons c' pre' =>
          simp only [List.cons_append, List.cons.injEq] at hdec
          exact ⟨pre', l, run, hdec.2, hl, hrun⟩

/-- C8 counterexample: with trigger `:`, line `:a b` and the cursor at
its end, `onTrigger` yields a span although the continuation after the
first letter contains a space — the claimed whitespace-free condition
(modelled from the spec as `specTriggerActive`) is false there. -/
theorem c8_counterexample :
    (onTrigger ':' ":a b" 4).isSome = true ∧
      specTriggerActive ':' (":a b".data.take 4) = false := by
  decide

/-- C8 (amended): `onTrigger` yields a span exactly when the text before
the cursor contains the trigger character followed by a letter and then
a run of letters and spaces extending to the cursor; every yielded span
ends at the cursor. -/
theorem c8_trigger_characterization (t : Char) (line : String) (cursorCh : Nat) :
    ((onTrigger t line cursorCh).isSome = true ↔
      ∃ pre l run, line.data.take cursorCh = pre ++ t :: l :: run ∧
        isTriggerLetter l = true ∧ run.all isTriggerCont = true) ∧
      (∀ info, onTrigger t line cursorCh = some info → info.endCh = cursorCh) := by
  constructor
  · rw [← triggerCapture_isSome_iff t (line.data.take cursorCh)]
    unfold onTrigger
    cases h : triggerCapture t (line.data.take cursorCh) <;> simp [h]
  · intro info hinfo
    have hinfo' : (match triggerCapture t (line.data.take cursorCh) with
        | none => none
        | some cap => some (TriggerInfo.mk (jsLastIndexOf t (line.data.take cursorCh))
            cursorCh (String.mk (jsTrimSpaces cap)))) = some info := hinfo
    cases h : triggerCapture t (line.data.take cursorCh) <;> rw [h] at hinfo'
    · exact absurd hinfo' (by simp)
    · have heq := Option.some.inj hinfo'
      rw [← heq]

/-- C8 witness: line `:ab`, cursor 3 — the span is active and ends at
the cursor. -/
theorem c8_witness :
    (onTrigger ':' ":ab" 3).isSome = true ∧ (TriggerInfo.mk 0 3 "ab").endCh = 3 :=
  ⟨(c8_trigger_characterization ':' ":ab" 3).1.mpr
      ⟨[], 'a', ['b'], by decide, by decide, by decide⟩,
    (c8_trigger_characterization ':' ":ab" 3).2 (TriggerInfo.mk 0 3 "ab") (by decide)⟩

/-- C9: accepting a suggestion for emoji `e` sets its popularity to the
old count plus one (an absent entry counting as zero) and leaves every
other emoji's count unchanged. -/
theorem c9_popularity_increment (pop : List (String × Nat)) (e : String) :
    recLookup (updateEmojiPopularity pop e) e = some ((recLookup pop e).getD 0 + 1) ∧
      ∀ e' : String, e' ≠ e →
        recLookup (updateEmojiPopularity pop e) e' = recLookup pop e' := by
  simp only [updateEmojiPopularity]
  by_cases h0 : (recLookup pop e).getD 0 = 0
  · simp only [h0, beq_self_eq_true, if_true]
    constructor
    · rw [recLookup_recSet]
      simp [recLookup_recSet, h0]
    · intro e' hne
      simp [recLookup_recSet, hne]
  · have hb : ((recLookup pop e).getD 0 == 0) = false := by simpa using h0
    simp only [hb, Bool.false_eq_true, if_false]
    constructor
    · rw [recLookup_recSet]
      simp
    · intro e' hne
      rw [recLookup_recSet]
      simp [hne]

/-- C9 witness: incrementing a fresh emoji creates count 1 and leaves an
existing entry untouched. -/
theorem c9_witness :
    recLookup (updateEmojiPopularity [("y", 3)] "e") "e" =
        some ((recLookup [("y", 3)] "e").getD 0 + 1) ∧
      recLookup (updateEmojiPopularity [("y", 3)] "e") "y" = recLookup [("y", 3)] "y" :=
  ⟨(c9_popularity_increment [("y", 3)] "e").1,
    (c9_popularity_increment [("y", 3)] "e").2 "y" (by decide)⟩

end TgEmoji
